import Mathlib

/-!
Shallow embedding of the distributed likelihood-evaluation engine of the
`imagine` repository (`imagine/pipelines/pipeline.py`), together with the
plumbing it uses from `imagine/fields` and the external-collaborator
interfaces described by the specification.  Python floats are modelled as
exact rationals, Python dicts as insertion-ordered association lists, and
raised exceptions as `Except` errors.  Mutation of the pipeline object is
modelled by explicit state passing, and the invocation of the external
collaborators (randomness controller, field factories, simulator,
likelihood) during one core-likelihood evaluation is recorded in an
explicit event trace.
-/

namespace Imagine

/-- Python float values in the likelihood pipeline, modelled as exact rationals. -/
abbrev Val := ℚ

/-- Exceptions raised by the modelled Python code. -/
inductive Err where
  | assertionError : Err
  | valueError : String → Err
  | keyError : Err
  | indexError : Err
deriving DecidableEq, Repr

instance {ε α : Type} [DecidableEq ε] [DecidableEq α] : DecidableEq (Except ε α)
  | .error e, .error f =>
    if h : e = f then .isTrue (by rw [h]) else .isFalse (fun hc => h (Except.error.inj hc))
  | .error _, .ok _ => .isFalse (fun hc => Except.noConfusion hc)
  | .ok _, .error _ => .isFalse (fun hc => Except.noConfusion hc)
  | .ok x, .ok y =>
    if h : x = y then .isTrue (by rw [h]) else .isFalse (fun hc => h (Except.ok.inj hc))

/-- Modelled from the spec: `imagine.priors.prior.GeneralPrior` is not under src/.
Per the spec (sections 4.2 and 6) a prior exposes `inverse_cdf`, the unit-to-physical
map, which is also the object's call operation used by `prior_transform`, and a
density `pdf`. -/
structure GeneralPrior where
  inverse_cdf : Val → Val
  pdf : Val → Val

/-- Python dict lookup `d[k]`, returning `none` where Python raises `KeyError`. -/
def dictGet {α : Type} (d : List (String × α)) (k : String) : Option α :=
  (d.find? (fun kv => kv.1 == k)).map (fun kv => kv.2)

/-- Python dict assignment `d[k] = v`: overwrites the existing entry in place,
keeping insertion order, or appends a new entry at the end. -/
def dictSet {α : Type} (d : List (String × α)) (k : String) (v : α) : List (String × α) :=
  if d.any (fun kv => kv.1 == k) then
    d.map (fun kv => if kv.1 == k then (k, v) else kv)
  else d ++ [(k, v)]

/-- `Pipeline.prior_transform` (pipeline.py lines 246-267): for each registered
prior, in registration order, `cube[i] = self.priors[parameter](cube[i])`, where
the prior's call operation is its unit-to-physical map `inverse_cdf`.  Positions
of `cube` beyond the registered priors are left untouched; if there are more
priors than cube entries, indexing raises `IndexError`. -/
def prior_transform (priors : List (String × GeneralPrior)) (cube : List Val) :
    Except Err (List Val) :=
  match priors, cube with
  | [], rest => .ok rest
  | _ :: _, [] => .error .indexError
  | pr :: ps, c :: cs =>
    match prior_transform ps cs with
    | .ok r => .ok (pr.2.inverse_cdf c :: r)
    | .error e => .error e

/-- `Pipeline.prior_pdf` (pipeline.py lines 225-243).  The source allocates
`cube_rtn = np.empty_like(cube)` — an uninitialised buffer of the same shape as
`cube`, whose arbitrary contents are modelled by the explicit argument `uninit`
(with `uninit.length = cube.length`) — and then executes
`cube_rtn[i] = self.priors[parameter].pdf(cube_rtn[i])` for each registered
prior in order.  Note the source reads `cube_rtn[i]`, the uninitialised buffer,
and never reads `cube` itself. -/
def prior_pdf (priors : List (String × GeneralPrior)) (cube : List Val)
    (uninit : List Val) : Except Err (List Val) :=
  prior_pdf_go priors uninit
where
  /-- Loop of `prior_pdf`: entry `i` is overwritten with `pdf` of its own
  previous (uninitialised) contents; positions past the registered priors keep
  their uninitialised contents; excess priors raise `IndexError`. -/
  prior_pdf_go : List (String × GeneralPrior) → List Val → Except Err (List Val)
  | [], buf => .ok buf
  | _ :: _, [] => .error .indexError
  | pr :: ps, b :: bs =>
    match prior_pdf_go ps bs with
    | .ok r => .ok (pr.2.pdf b :: r)
    | .error e => .error e

/-- Modelled from the spec: `imagine.fields.field_factory.GeneralFieldFactory` is
not under src/.  Per the spec (sections 3 and 6) a field-factory descriptor has a
name, an ordered list of active-parameter names, per-parameter ranges and priors,
and a `generate(variables, ensemble_size, ensemble_seeds)` operation producing a
field (possibly raising).  The field type `F` is opaque to the pipeline. -/
structure GeneralFieldFactory (F : Type) where
  name : String
  active_parameters : List String
  parameter_ranges : List (String × (Val × Val))
  priors : List (String × GeneralPrior)
  generate : List (String × Val) → ℕ → Option (List ℕ) → Except Err F

/-- The registry built by the `factory_list` setter: `_active_parameters`,
`_active_ranges` and `_priors` (pipeline.py lines 185-187). -/
structure Registry where
  active_parameters : List String
  active_ranges : List (String × (Val × Val))
  priors : List (String × GeneralPrior)

/-- Inner loop of the `factory_list` setter (pipeline.py lines 191-199): for each
active-parameter name of one factory, append the qualified name
`factory.name + '_' + ap_name` to the active-parameter tuple and store its range
and prior under the qualified name.  Missing ranges or priors raise `KeyError`;
no duplicate check of any kind is performed. -/
def register_params (name : String) (ranges : List (String × (Val × Val)))
    (factoryPriors : List (String × GeneralPrior)) :
    List String → Registry → Except Err Registry
  | [], r => .ok r
  | ap :: rest, r =>
    match dictGet ranges ap with
    | none => .error .keyError
    | some range =>
      match dictGet factoryPriors ap with
      | none => .error .keyError
      | some prior =>
        register_params name ranges factoryPriors rest
          { active_parameters := r.active_parameters ++ [name ++ "_" ++ ap]
            active_ranges := dictSet r.active_ranges (name ++ "_" ++ ap) range
            priors := dictSet r.priors (name ++ "_" ++ ap) prior }

/-- Outer loop of the `factory_list` setter (pipeline.py lines 189-199). -/
def register_factories {F : Type} :
    List (GeneralFieldFactory F) → Registry → Except Err Registry
  | [], r => .ok r
  | f :: rest, r =>
    match register_params f.name f.parameter_ranges f.priors f.active_parameters r with
    | .error e => .error e
    | .ok r1 => register_factories rest r1

/-- The `factory_list` setter (pipeline.py lines 179-200): rebuilds the registry
from scratch for the given factory list. -/
def set_factory_list {F : Type} (fl : List (GeneralFieldFactory F)) : Except Err Registry :=
  register_factories fl { active_parameters := [], active_ranges := [], priors := [] }

/-- `Pipeline.samples_scaled` (pipeline.py lines 137-149): wraps the stored
unit-scale sample array (one column per qualified parameter) into a table keyed
by the active-parameter names. -/
def samples_scaled (active_parameters : List String) (samples_array : List (List Val)) :
    List (String × List Val) :=
  active_parameters.zip samples_array

/-- Loop of `Pipeline.samples` (pipeline.py lines 163-165): for each active
parameter, read `pmin, pmax = self.active_ranges[param]` and rescale that
column of the table by `table[param]*(pmax - pmin) + pmin`. -/
def samples_loop (active_ranges : List (String × (Val × Val))) :
    List String → List (String × List Val) → Except Err (List (String × List Val))
  | [], table => .ok table
  | param :: rest, table =>
    match dictGet active_ranges param with
    | none => .error .keyError
    | some pr =>
      samples_loop active_ranges rest (table.map (fun col =>
        if col.1 == param then (col.1, col.2.map (fun u => u * (pr.2 - pr.1) + pr.1))
        else col))

/-- `Pipeline.samples` (pipeline.py lines 151-167): starts from the unit-scale
table and rescales each column by the registered active range of its parameter.
The mapping is recomputed on each access from the stored unit-scale array. -/
def samples (active_parameters : List String)
    (active_ranges : List (String × (Val × Val)))
    (samples_array : List (List Val)) : Except Err (List (String × List Val)) :=
  samples_loop active_ranges active_parameters (samples_scaled active_parameters samples_array)

/-- Claimed physical-scale accessor, following the spec's words (section 4.5):
map each stored unit value `u` of qualified parameter `p` to
`prior_p.inverse_cdf(u)`, the unit-to-physical mapping used by `prior_transform`.
This definition exists only to be compared with `samples`, which is translated
from the source. -/
def samples_spec_claimed (active_parameters : List String)
    (priors : List (String × GeneralPrior))
    (samples_array : List (List Val)) : Except Err (List (String × List Val)) :=
  go active_parameters samples_array
where
  go : List String → List (List Val) → Except Err (List (String × List Val))
  | [], _ => .ok []
  | _ :: _, [] => .ok []
  | param :: rest, col :: cols =>
    match dictGet priors param with
    | none => .error .keyError
    | some prior =>
      match go rest cols with
      | .ok r => .ok ((param, col.map prior.inverse_cdf) :: r)
      | .error e => .error e

/-- Modelled from the spec: `imagine.tools.random_seed.ensemble_seed_generator`
is not under src/.  Per the spec (section 4.3) it is a deterministic
seed-generation function of the ensemble size drawing from the process-global
random generator, advancing that generator's state on each call.  The global
generator state is modelled as a natural number threaded explicitly. -/
def ensemble_seed_generator (state : ℕ) (size : ℕ) : List ℕ × ℕ :=
  ((List.range size).map (fun i => state + i + 1), state + size + 1)

/-- Modelled from the spec: `np.random.seed(t)` re-seeds the process-global
random generator from the integer `t`, fully determining its new state. -/
def np_random_seed (t : ℤ) : ℕ :=
  t.natAbs

/-- The per-process pipeline object (pipeline.py lines 53-79), restricted to the
state read or written by the likelihood-evaluation engine.  The external
collaborators (simulator, mask application, likelihood) are opaque functions
over the opaque field type `F` and observable type `O`; `apply_mask` stands for
`observables.apply_mask(self.likelihood.mask_dict)`.  `sampler_supports_mpi` is
the protocol flag fixed by the concrete sampler subclass, and `np_random_state`
is this process's global `np.random` generator state. -/
structure Pipeline (F O : Type) where
  factory_list : List (GeneralFieldFactory F)
  active_parameters : List String
  active_ranges : List (String × (Val × Val))
  priors : List (String × GeneralPrior)
  simulator : List F → Except Err O
  apply_mask : O → Except Err O
  likelihood : O → Except Err Val
  ensemble_size : ℕ
  likelihood_rescaler : Val
  ensemble_seeds : Option (List ℕ)
  seed_tracer : ℤ
  random_type : String
  check_threshold : Bool
  likelihood_threshold : Val
  sampler_supports_mpi : Bool
  np_random_state : ℕ

/-- The `seed_tracer` setter (pipeline.py lines 298-302): stores the tracer and
re-seeds the global random generator from it. -/
def set_seed_tracer {F O : Type} (p : Pipeline F O) (t : ℤ) : Pipeline F O :=
  { p with seed_tracer := t, np_random_state := np_random_seed t }

/-- `Pipeline._randomness` (pipeline.py lines 304-321).  Under `'free'` it
asserts that no stale ensemble-seed set is present; under `'controllable'` it
draws a fresh seed set from the current global generator state; under `'fixed'`
it first re-seeds the global generator from the seed tracer and then draws; any
other policy raises `ValueError`.  The assignment `self.ensemble_seeds = ...` is
modelled (from the spec, section 4.3, the attribute plumbing being outside src/)
as updating the pipeline's ensemble-seed set. -/
def _randomness {F O : Type} (p : Pipeline F O) : Except Err (Pipeline F O) :=
  if p.random_type = "free" then
    match p.ensemble_seeds with
    | none => .ok p
    | some _ => .error .assertionError
  else if p.random_type = "controllable" then
    let sg := ensemble_seed_generator p.np_random_state p.ensemble_size
    .ok { p with ensemble_seeds := some sg.1, np_random_state := sg.2 }
  else if p.random_type = "fixed" then
    let sg := ensemble_seed_generator (np_random_seed p.seed_tracer) p.ensemble_size
    .ok { p with ensemble_seeds := some sg.1, np_random_state := sg.2 }
  else .error (.valueError "unsupport random type")

/-- Record of one `factory.generate(...)` invocation made during a
core-likelihood evaluation: the keyword arguments the factory received. -/
structure GenCall where
  variable_dict : List (String × Val)
  ensemble_size : ℕ
  ensemble_seeds : Option (List ℕ)
deriving DecidableEq, Repr

/-- Events observed during one core-likelihood evaluation: invocation of the
randomness controller, of a factory's `generate`, of the simulator, of mask
application, and of the likelihood scoring. -/
inductive Event where
  | rand : Event
  | gen : GenCall → Event
  | sim : Event
  | mask : Event
  | lik : Event
deriving DecidableEq, Repr

/-- Arguments of the `generate` invocations recorded in a trace. -/
def genCalls (trace : List Event) : List GenCall :=
  trace.filterMap (fun e => match e with | .gen c => some c | _ => none)

/-- Construction of one factory's `variable_dict` (pipeline.py lines 353-357):
`variable_dict[av] = factory_cube[i]` for each local active parameter `av` in
declared order; `IndexError` if the sliced cube is shorter than the parameter
list. -/
def buildVarDict (acc : List (String × Val)) :
    List String → List Val → Except Err (List (String × Val))
  | [], _ => .ok acc
  | _ :: _, [] => .error .indexError
  | n :: ns, v :: vs => buildVarDict (dictSet acc n v) ns vs

/-- The factory loop of `Pipeline._core_likelihood` (pipeline.py lines 346-362):
walks the factory list in registration order, maintaining `head_idx`/`tail_idx`,
slices `cube[head_idx:tail_idx]` for each factory, builds its variable dict and
invokes `generate` with the pipeline's ensemble size and current ensemble
seeds.  Returns the generated field tuple and the final index, together with
the trace of `generate` invocations made before any exception. -/
def fields_loop {F O : Type} (p : Pipeline F O) (cube : List Val) :
    List (GeneralFieldFactory F) → ℕ → Except Err (List F × ℕ) × List Event
  | [], head_idx => (.ok ([], head_idx), [])
  | factory :: rest, head_idx =>
    let tail_idx := head_idx + factory.active_parameters.length
    let factory_cube := (cube.drop head_idx).take factory.active_parameters.length
    match buildVarDict [] factory.active_parameters factory_cube with
    | .error e => (.error e, [])
    | .ok variable_dict =>
      match factory.generate variable_dict p.ensemble_size p.ensemble_seeds with
      | .error e => (.error e, [.gen ⟨variable_dict, p.ensemble_size, p.ensemble_seeds⟩])
      | .ok field =>
        match fields_loop p cube rest tail_idx with
        | (.ok (fields, final_idx), evs) =>
          (.ok (field :: fields, final_idx),
           .gen ⟨variable_dict, p.ensemble_size, p.ensemble_seeds⟩ :: evs)
        | (.error e, evs) =>
          (.error e, .gen ⟨variable_dict, p.ensemble_size, p.ensemble_seeds⟩ :: evs)

/-- `np.nan_to_num(-np.inf)`: the most negative representable double,
`-(2^53 - 1) * 2^971`, as an exact rational. -/
def nan_to_num_neg_inf : Val :=
  -((2 ^ 53 - 1) * 2 ^ 971)

/-- The security boundary check of `Pipeline._core_likelihood` (pipeline.py line
341): `np.any(cube > 1.) or np.any(cube < 0.)`. -/
def out_of_bounds (cube : List Val) : Bool :=
  cube.any (fun x => decide (1 < x)) || cube.any (fun x => decide (x < 0))

/-- Tail of `Pipeline._core_likelihood` after the factory loop and index
assertion (pipeline.py lines 364-372): simulation, masking, likelihood scoring,
the optional threshold guard (`current_likelihood > likelihood_threshold`, on
the unrescaled scalar), and multiplication by the rescaler.  Returns the
outcome together with the trace of collaborator invocations of this stage. -/
def _core_likelihood_rest {F O : Type} (p1 : Pipeline F O) (field_list : List F) :
    Except Err Val × List Event :=
  match p1.simulator field_list with
  | .error e => (.error e, [.sim])
  | .ok observables =>
    match p1.apply_mask observables with
    | .error e => (.error e, [.sim, .mask])
    | .ok masked =>
      match p1.likelihood masked with
      | .error e => (.error e, [.sim, .mask, .lik])
      | .ok current_likelihood =>
        if p1.check_threshold = true ∧ p1.likelihood_threshold < current_likelihood then
          (.error (.valueError "log-likelihood beyond threshold"), [.sim, .mask, .lik])
        else
          (.ok (current_likelihood * p1.likelihood_rescaler), [.sim, .mask, .lik])

/-- Body of `Pipeline._core_likelihood` past the boundary check (pipeline.py
lines 344-372): randomness manipulation, the factory loop, the final-index
assertion, then `_core_likelihood_rest`.  Returns the outcome, the pipeline
state after the evaluation, and the trace of collaborator invocations. -/
def _core_likelihood_main {F O : Type} (p : Pipeline F O) (cube : List Val) :
    Except Err Val × Pipeline F O × List Event :=
  match _randomness p with
  | .error e => (.error e, p, [.rand])
  | .ok p1 =>
    match fields_loop p1 cube p1.factory_list 0 with
    | (.error e, evs) => (.error e, p1, .rand :: evs)
    | (.ok (field_list, head_idx), evs) =>
      if head_idx = p1.active_parameters.length then
        let r := _core_likelihood_rest p1 field_list
        (r.1, p1, .rand :: evs ++ r.2)
      else (.error .assertionError, p1, .rand :: evs)

/-- `Pipeline._core_likelihood` (pipeline.py lines 324-372): if any cube
coordinate is strictly above 1 or strictly below 0, return
`np.nan_to_num(-np.inf)` immediately, leaving the pipeline state untouched and
invoking no collaborator; otherwise run the evaluation body. -/
def _core_likelihood {F O : Type} (p : Pipeline F O) (cube : List Val) :
    Except Err Val × Pipeline F O × List Event :=
  if out_of_bounds cube then
    (.ok nan_to_num_neg_inf, p, [])
  else
    _core_likelihood_main p cube

/-- The Protocol A evaluation loop of `Pipeline._mpi_likelihood` (pipeline.py
lines 404-408): evaluate the core likelihood of every gathered cube in
ascending process-index order on this process, threading this process's
pipeline state through the successive evaluations.  The loop stops at the
first raised exception.  The second component records the cubes actually
passed to `_core_likelihood`. -/
def eval_pool {F O : Type} (p : Pipeline F O) :
    List (List Val) → Except Err (List Val × Pipeline F O) × List (List Val)
  | [] => (.ok ([], p), [])
  | c :: rest =>
    match _core_likelihood p c with
    | (.ok v, p1, _) =>
      match eval_pool p1 rest with
      | (.ok (vs, pf), calls) => (.ok (v :: vs, pf), c :: calls)
      | (.error e, calls) => (.error e, c :: calls)
    | (.error e, _, _) => (.error e, [c])

/-- `np.tile(l, n)`: `l` repeated `n` times. -/
def np_tile (l : List Val) (n : ℕ) : List Val :=
  (List.replicate n l).flatten

/-- `Pipeline._mpi_likelihood` (pipeline.py lines 375-425), as observed by the
process of rank `rank` in a group of `allCubes.length` processes whose
per-process proposal cubes are `allCubes`.  The `Allgather` produces the flat
`cube_pool` (worker index to position correspondence preserved); `p_own` is this
process's pipeline object and `p_root` is the pipeline object of the rank-0
process, whose likelihood pool the `Scatter` (root 0) distributes.  Under
Protocol A (`sampler_supports_mpi`) the process evaluates every slice of the
pool in index order, then receives entry `rank` of the root's pool; an
exception on this process or on the root is fatal before any value is
delivered.  Under Protocol B the process asserts that the pool is a tiled copy
of the first `cube.size` entries and then evaluates its own cube exactly once.
The second component records the cubes this process passed to
`_core_likelihood`. -/
def _mpi_likelihood {F O : Type} (p_own p_root : Pipeline F O)
    (allCubes : List (List Val)) (rank : ℕ) :
    Except Err Val × List (List Val) :=
  let mpisize := allCubes.length
  let cube := allCubes.getD rank []
  let cube_local_size := cube.length
  let cube_pool := allCubes.flatten
  if p_own.sampler_supports_mpi then
    let slices := (List.range mpisize).map
      (fun i => (cube_pool.drop (i * cube_local_size)).take cube_local_size)
    match eval_pool p_own slices with
    | (.error e, calls) => (.error e, calls)
    | (.ok _, calls) =>
      match (eval_pool p_root slices).1 with
      | .error e => (.error e, calls)
      | .ok (loglike_pool, _) => (.ok (loglike_pool.getD rank 0), calls)
  else
    if cube_pool = np_tile (cube_pool.take cube_local_size) mpisize then
      ((_core_likelihood p_own cube).1, [cube])
    else
      (.error .assertionError, [])

section Examples

/-- Field type of the concrete example wiring: the generated field records the
ensemble seeds the factory received. -/
abbrev ExField := Option (List ℕ)

/-- Observable type of the concrete example wiring: the tuple of fields. -/
abbrev ExObs := List ExField

/-- A flat prior on the unit interval: `inverse_cdf` and `pdf` are both the
identity. -/
def flatPrior : GeneralPrior :=
  { inverse_cdf := fun v => v, pdf := fun v => v }

/-- Concrete single-parameter field factory used by the witnesses: `generate`
returns the ensemble seeds it received. -/
def exFactory : GeneralFieldFactory ExField :=
  { name := "ex"
    active_parameters := ["x"]
    parameter_ranges := [("x", (0, 1))]
    priors := [("x", flatPrior)]
    generate := fun _ _ seeds => .ok seeds }

/-- Concrete pipeline used by the witnesses: one single-parameter factory, a
pass-through simulator and mask, and a likelihood that scores `1` exactly when
the generated field carries the seed list `[1]` and `37` otherwise. -/
def exPipeline : Pipeline ExField ExObs :=
  { factory_list := [exFactory]
    active_parameters := ["ex_x"]
    active_ranges := [("ex_x", (0, 1))]
    priors := [("ex_x", flatPrior)]
    simulator := fun fields => .ok fields
    apply_mask := fun obs => .ok obs
    likelihood := fun obs => .ok (if obs = [some [1]] then 1 else 37)
    ensemble_size := 1
    likelihood_rescaler := 1
    ensemble_seeds := none
    seed_tracer := 0
    random_type := "controllable"
    check_threshold := false
    likelihood_threshold := 0
    sampler_supports_mpi := true
    np_random_state := 0 }

end Examples

lemma out_of_bounds_iff (cube : List Val) :
    out_of_bounds cube = true ↔ ∃ x ∈ cube, x < 0 ∨ 1 < x := by
  simp only [out_of_bounds, Bool.or_eq_true, List.any_eq_true, decide_eq_true_eq]
  constructor
  · rintro (⟨x, hx, h⟩ | ⟨x, hx, h⟩) <;> exact ⟨x, hx, by tauto⟩
  · rintro ⟨x, hx, h | h⟩
    · exact Or.inr ⟨x, hx, h⟩
    · exact Or.inl ⟨x, hx, h⟩

/-- C1: for every cube with at least one coordinate strictly below 0 or strictly
above 1, `_core_likelihood` returns the most negative representable float, the
sentinel `np.nan_to_num(-np.inf)`, and raises no exception, regardless of how
the factories, simulator and likelihood of the pipeline are wired. -/
theorem c1_boundary_sentinel {F O : Type} (p : Pipeline F O) (cube : List Val)
    (h : ∃ x ∈ cube, x < 0 ∨ 1 < x) :
    _core_likelihood p cube = (.ok nan_to_num_neg_inf, p, []) := by
  unfold _core_likelihood
  rw [if_pos ((out_of_bounds_iff cube).mpr h)]

theorem c1_witness :
    _core_likelihood exPipeline [2] = (.ok nan_to_num_neg_inf, exPipeline, []) :=
  c1_boundary_sentinel exPipeline [2] ⟨2, List.mem_singleton.mpr rfl, Or.inr (by decide)⟩

/-- C10: on an out-of-bounds cube `_core_likelihood` returns the sentinel before
performing any other action — no randomness, factory, simulator or likelihood
invocation is recorded and the pipeline state (ensemble seeds, seed tracer,
global random-generator state) is returned unchanged — while a cube whose
coordinates all lie in the closed interval `[0,1]` (including coordinates
exactly 0 or 1) is not rejected: evaluation proceeds with the main body. -/
theorem c10_boundary_before_any_action {F O : Type} (p : Pipeline F O) (cube : List Val) :
    ((∃ x ∈ cube, x < 0 ∨ 1 < x) →
        _core_likelihood p cube = (.ok nan_to_num_neg_inf, p, []))
    ∧ ((∀ x ∈ cube, 0 ≤ x ∧ x ≤ 1) →
        _core_likelihood p cube = _core_likelihood_main p cube) := by
  constructor
  · intro h
    unfold _core_likelihood
    rw [if_pos ((out_of_bounds_iff cube).mpr h)]
  · intro h
    have hb : ¬ (out_of_bounds cube = true) := by
      rw [out_of_bounds_iff]
      rintro ⟨x, hx, hlt | hgt⟩
      · exact absurd hlt (not_lt.mpr (h x hx).1)
      · exact absurd hgt (not_lt.mpr (h x hx).2)
    unfold _core_likelihood
    rw [if_neg hb]

theorem c10_witness :
    _core_likelihood exPipeline [2] = (.ok nan_to_num_neg_inf, exPipeline, [])
    ∧ _core_likelihood exPipeline [0, 1] = _core_likelihood_main exPipeline [0, 1] :=
  ⟨(c10_boundary_before_any_action exPipeline [2]).1
      ⟨2, List.mem_singleton.mpr rfl, Or.inr (by decide)⟩,
   (c10_boundary_before_any_action exPipeline [0, 1]).2 (by decide)⟩

/-- C5: the claim says `prior_pdf` evaluates each registered prior's density at
the input value `cube[i]`.  The code instead evaluates the density at the
contents of its own uninitialised output buffer `cube_rtn = np.empty_like(cube)`
and never reads `cube`: with a single identity-density prior, input cube `[5]`
and uninitialised buffer contents `[7]`, the code returns `[7]`, not the claimed
`[5]`. -/
theorem c5_prior_pdf_uses_uninitialised_buffer :
    prior_pdf [("x", flatPrior)] [5] [7] = .ok [7]
    ∧ prior_pdf [("x", flatPrior)] [5] [7] ≠ .ok [5] :=
  ⟨rfl, by decide⟩

/-- Mapping that `samples` actually applies to the stored unit-scale columns:
linear rescaling by the registered active range, `u * (pmax - pmin) + pmin`. -/
def samples_range_scaled (active_parameters : List String)
    (active_ranges : List (String × (Val × Val)))
    (samples_array : List (List Val)) : List (String × List Val) :=
  (active_parameters.zip samples_array).map (fun pc =>
    match dictGet active_ranges pc.1 with
    | some pr => (pc.1, pc.2.map (fun u => u * (pr.2 - pr.1) + pr.1))
    | none => pc)

/-- A prior whose unit-to-physical map is constantly 0 (and density constantly
1); its `inverse_cdf` disagrees with linear range scaling. -/
def zeroPrior : GeneralPrior :=
  { inverse_cdf := fun _ => 0, pdf := fun _ => 1 }

/-- C6 counterexample: with one registered parameter of range `(0,1)` whose
prior maps every unit value to 0, and the stored unit-scale sample `1`, the
accessor `samples` returns the range-scaled value `1*(1-0)+0 = 1`, while the
prior's `inverse_cdf` — the unit-to-physical mapping that `prior_transform`
applies — sends `1` to `0`.  The claim that `samples` applies
`prior_p.inverse_cdf` is therefore false on this input. -/
theorem c6_counterexample :
    samples ["f_x"] [("f_x", (0, 1))] [[1]] = .ok [("f_x", [1 * (1 - 0) + 0])]
    ∧ samples_spec_claimed ["f_x"] [("f_x", zeroPrior)] [[1]] = .ok [("f_x", [0])]
    ∧ prior_transform [("f_x", zeroPrior)] [1] = .ok [0]
    ∧ (Except.ok [("f_x", [1 * (1 - 0) + 0])] : Except Err (List (String × List Val)))
        ≠ .ok [("f_x", [0])] := by
  refine ⟨rfl, rfl, rfl, ?_⟩
  simp only [ne_eq, Except.ok.injEq, List.cons.injEq, Prod.mk.injEq, and_true, true_and]
  norm_num

lemma samples_loop_spec (ar : List (String × (Val × Val))) :
    ∀ (ap : List String) (table : List (String × List Val)),
      ap.Nodup → (∀ q ∈ ap, (dictGet ar q).isSome) →
      samples_loop ar ap table = .ok (table.map (fun col =>
        if col.1 ∈ ap then
          match dictGet ar col.1 with
          | some pr => (col.1, col.2.map (fun u => u * (pr.2 - pr.1) + pr.1))
          | none => col
        else col)) := by
  intro ap
  induction ap with
  | nil => intro table _ _; simp [samples_loop]
  | cons q rest ih =>
    intro table hnd hsome
    obtain ⟨pr, hpr⟩ := Option.isSome_iff_exists.mp (hsome q (List.mem_cons_self q rest))
    have hstep : samples_loop ar (q :: rest) table
        = samples_loop ar rest (table.map (fun col =>
            if col.1 == q then (col.1, col.2.map (fun u => u * (pr.2 - pr.1) + pr.1))
            else col)) := by
      rw [samples_loop, hpr]
    rw [hstep,
      ih _ (List.nodup_cons.mp hnd).2 (fun x hx => hsome x (List.mem_cons_of_mem q hx))]
    rw [List.map_map]
    congr 1
    apply List.map_congr_left
    intro col _
    by_cases hq : col.1 = q
    · have hqrest : q ∉ rest := (List.nodup_cons.mp hnd).1
      simp only [Function.comp_apply, hq, beq_self_eq_true, if_true]
      rw [if_neg (by simpa using hqrest), if_pos (List.mem_cons_self q rest), ← hq, hq, hpr]
    · simp only [Function.comp_apply, beq_iff_eq, hq, if_false]
      simp only [List.mem_cons, hq, false_or]

/-- C6 amended: for every stored unit-scale sample table (with distinct
registered parameter names, each having a registered range), the
physical-scale accessor `samples` maps each stored unit value `u` of qualified
parameter `p` to `u * (pmax - pmin) + pmin`, the linear rescaling by the
registered active range of `p` — not to the prior's `inverse_cdf` — recomputed
on each access from the stored unit-scale array. -/
theorem c6_samples_range_scaling (ap : List String)
    (ar : List (String × (Val × Val))) (sa : List (List Val))
    (hnd : ap.Nodup) (hr : ∀ q ∈ ap, (dictGet ar q).isSome) :
    samples ap ar sa = .ok (samples_range_scaled ap ar sa) := by
  unfold samples samples_scaled samples_range_scaled
  rw [samples_loop_spec ar ap _ hnd hr]
  congr 1
  apply List.map_congr_left
  rintro ⟨a, b⟩ hpc
  have h1 : a ∈ ap := (List.of_mem_zip hpc).1
  rw [if_pos h1]

theorem c6_witness :
    samples ["f_x"] [("f_x", (0, 1))] [[1]]
      = .ok (samples_range_scaled ["f_x"] [("f_x", (0, 1))] [[1]]) :=
  c6_samples_range_scaling ["f_x"] [("f_x", (0, 1))] [[1]] (by decide) (by decide)

/-- Projection of a registration outcome used to state concrete registry facts:
`some` of the active-parameter tuple on success, `none` on failure. -/
def registry_params : Except Err Registry → Option (List String)
  | .ok r => some r.active_parameters
  | .error _ => none

/-- C8 counterexample: registering the factory list `[exFactory, exFactory]`,
whose two descriptors produce the duplicate qualified name `"ex_x"`, does not
fail with any error: it succeeds and builds a registry whose active-parameter
tuple contains the duplicate name twice. -/
theorem c8_counterexample :
    registry_params (set_factory_list [exFactory, exFactory]) = some ["ex_x", "ex_x"] :=
  rfl

lemma register_params_spec (name : String) (ranges : List (String × (Val × Val)))
    (prs : List (String × GeneralPrior)) :
    ∀ (aps : List String) (r : Registry),
      (∀ ap ∈ aps, (dictGet ranges ap).isSome ∧ (dictGet prs ap).isSome) →
      ∃ r1, register_params name ranges prs aps r = .ok r1
        ∧ r1.active_parameters
            = r.active_parameters ++ aps.map (fun ap => name ++ "_" ++ ap) := by
  intro aps
  induction aps with
  | nil => intro r _; exact ⟨r, rfl, by simp⟩
  | cons ap rest ih =>
    intro r h
    obtain ⟨range, hrange⟩ :=
      Option.isSome_iff_exists.mp (h ap (List.mem_cons_self ap rest)).1
    obtain ⟨prior, hprior⟩ :=
      Option.isSome_iff_exists.mp (h ap (List.mem_cons_self ap rest)).2
    obtain ⟨r1, hr1, hparams⟩ :=
      ih { active_parameters := r.active_parameters ++ [name ++ "_" ++ ap]
           active_ranges := dictSet r.active_ranges (name ++ "_" ++ ap) range
           priors := dictSet r.priors (name ++ "_" ++ ap) prior }
        (fun x hx => h x (List.mem_cons_of_mem ap hx))
    refine ⟨r1, ?_, ?_⟩
    · have hstep : register_params name ranges prs (ap :: rest) r
          = register_params name ranges prs rest
              { active_parameters := r.active_parameters ++ [name ++ "_" ++ ap]
                active_ranges := dictSet r.active_ranges (name ++ "_" ++ ap) range
                priors := dictSet r.priors (name ++ "_" ++ ap) prior } := by
        rw [register_params, hrange, hprior]
      rw [hstep]; exact hr1
    · rw [hparams]; simp

lemma register_factories_spec {F : Type} :
    ∀ (fl : List (GeneralFieldFactory F)) (r : Registry),
      (∀ f ∈ fl, ∀ ap ∈ f.active_parameters,
        (dictGet f.parameter_ranges ap).isSome ∧ (dictGet f.priors ap).isSome) →
      ∃ r1, register_factories fl r = .ok r1
        ∧ r1.active_parameters = r.active_parameters
            ++ (fl.map (fun f =>
                  f.active_parameters.map (fun ap => f.name ++ "_" ++ ap))).flatten := by
  intro fl
  induction fl with
  | nil => intro r _; exact ⟨r, rfl, by simp⟩
  | cons f rest ih =>
    intro r h
    obtain ⟨r1, hr1, hp1⟩ :=
      register_params_spec f.name f.parameter_ranges f.priors f.active_parameters r
        (h f (List.mem_cons_self f rest))
    obtain ⟨r2, hr2, hp2⟩ := ih r1 (fun g hg => h g (List.mem_cons_of_mem f hg))
    refine ⟨r2, ?_, ?_⟩
    · have hstep : register_factories (f :: rest) r = register_factories rest r1 := by
        rw [register_factories, hr1]
      rw [hstep]; exact hr2
    · rw [hp2, hp1]; simp

/-- C8 amended: the `factory_list` setter performs no duplicate check.  For
every factory list in which each declared active parameter has a registered
range and prior, registration succeeds — even when two descriptors produce
duplicate qualified names — and the active-parameter tuple is the concatenation
of all qualified names in registration order, duplicates included (later
duplicates silently overwrite the range and prior dictionary entries). -/
theorem c8_no_duplicate_check {F : Type} (fl : List (GeneralFieldFactory F))
    (h : ∀ f ∈ fl, ∀ ap ∈ f.active_parameters,
        (dictGet f.parameter_ranges ap).isSome ∧ (dictGet f.priors ap).isSome) :
    ∃ r, set_factory_list fl = .ok r
      ∧ r.active_parameters
          = (fl.map (fun f =>
              f.active_parameters.map (fun ap => f.name ++ "_" ++ ap))).flatten := by
  obtain ⟨r, hr, hp⟩ := register_factories_spec fl
    { active_parameters := [], active_ranges := [], priors := [] } h
  exact ⟨r, hr, by simpa using hp⟩

theorem c8_witness :
    ∃ r, set_factory_list [exFactory, exFactory] = .ok r
      ∧ r.active_parameters
          = ([exFactory, exFactory].map (fun f =>
              f.active_parameters.map (fun ap => f.name ++ "_" ++ ap))).flatten :=
  c8_no_duplicate_check [exFactory, exFactory] (by decide)

/-- Concrete pipeline running Protocol B (the sampler does not coordinate
workers itself). -/
def protocolBPipeline : Pipeline ExField ExObs :=
  { exPipeline with sampler_supports_mpi := false }

/-- C3: under Protocol B, if the all-gathered per-process cubes are not all
bit-identical to the tiled copy of the first process's cube, `_mpi_likelihood`
raises the consistency assertion and returns no score (and performs no core
evaluation); if they are identical, each process returns `_core_likelihood` of
its own cube, evaluated exactly once. -/
theorem c3_protocol_b_consistency {F O : Type} (p_own p_root : Pipeline F O)
    (allCubes : List (List Val)) (rank : ℕ)
    (h : p_own.sampler_supports_mpi = false) :
    (allCubes.flatten ≠ np_tile (allCubes.flatten.take (allCubes.getD rank []).length)
          allCubes.length →
        _mpi_likelihood p_own p_root allCubes rank = (.error .assertionError, []))
    ∧ (allCubes.flatten = np_tile (allCubes.flatten.take (allCubes.getD rank []).length)
          allCubes.length →
        _mpi_likelihood p_own p_root allCubes rank =
          ((_core_likelihood p_own (allCubes.getD rank [])).1, [allCubes.getD rank []])) := by
  constructor
  · intro hne
    simp only [_mpi_likelihood, h, Bool.false_eq_true, if_false]
    rw [if_neg hne]
  · intro heq
    simp only [_mpi_likelihood, h, Bool.false_eq_true, if_false]
    rw [if_pos heq]

theorem c3_witness :
    _mpi_likelihood protocolBPipeline protocolBPipeline [[0], [1]] 0
      = (.error .assertionError, [])
    ∧ _mpi_likelihood protocolBPipeline protocolBPipeline [[0], [0]] 0
      = ((_core_likelihood protocolBPipeline [0]).1, [[0]]) :=
  ⟨(c3_protocol_b_consistency protocolBPipeline protocolBPipeline [[0], [1]] 0 rfl).1
      (by decide),
   by
    have h := (c3_protocol_b_consistency protocolBPipeline protocolBPipeline [[0], [0]] 0
      rfl).2 (by decide)
    simpa using h⟩

/-- Statement that `q` agrees with `p` on every pipeline field except the
ensemble-seed set and the global random-generator state — the only state
`_randomness` may modify. -/
def eqExceptSeeds {F O : Type} (p q : Pipeline F O) : Prop :=
  q = { p with ensemble_seeds := q.ensemble_seeds, np_random_state := q.np_random_state }

lemma randomness_ok_shape {F O : Type} {p p1 : Pipeline F O}
    (h : _randomness p = .ok p1) : eqExceptSeeds p p1 := by
  simp only [_randomness] at h
  by_cases h1 : p.random_type = "free"
  · rw [if_pos h1] at h
    cases hm : p.ensemble_seeds with
    | none =>
      rw [hm] at h
      injection h with h2
      rw [← h2]
      rfl
    | some s => rw [hm] at h; exact Except.noConfusion h
  · rw [if_neg h1] at h
    by_cases h2 : p.random_type = "controllable"
    · rw [if_pos h2] at h
      injection h with h3
      rw [← h3]
      rfl
    · rw [if_neg h2] at h
      by_cases h3 : p.random_type = "fixed"
      · rw [if_pos h3] at h
        injection h with h4
        rw [← h4]
        rfl
      · rw [if_neg h3] at h; exact Except.noConfusion h

lemma randomness_ok_seeds {F O : Type} {p p1 : Pipeline F O}
    (h : _randomness p = .ok p1)
    (hrng : p.np_random_state = np_random_seed p.seed_tracer) :
    p1.ensemble_seeds =
      (if p.random_type = "free" then none
       else some (ensemble_seed_generator (np_random_seed p.seed_tracer) p.ensemble_size).1) := by
  simp only [_randomness] at h
  by_cases h1 : p.random_type = "free"
  · rw [if_pos h1] at h
    rw [if_pos h1]
    cases hm : p.ensemble_seeds with
    | none => rw [hm] at h; injection h with h2; rw [← h2, hm]
    | some s => rw [hm] at h; exact Except.noConfusion h
  · rw [if_neg h1] at h
    rw [if_neg h1]
    by_cases h2 : p.random_type = "controllable"
    · rw [if_pos h2] at h
      injection h with h3
      rw [← h3, ← hrng]
    · rw [if_neg h2] at h
      by_cases h3 : p.random_type = "fixed"
      · rw [if_pos h3] at h
        injection h with h4
        rw [← h4]
      · rw [if_neg h3] at h; exact Except.noConfusion h

lemma fields_loop_gen_seeds {F O : Type} (p : Pipeline F O) (cube : List Val) :
    ∀ (fl : List (GeneralFieldFactory F)) (h : ℕ) (c : GenCall),
      Event.gen c ∈ (fields_loop p cube fl h).2 →
      c.ensemble_seeds = p.ensemble_seeds ∧ c.ensemble_size = p.ensemble_size := by
  intro fl
  induction fl with
  | nil => intro h c hc; simp [fields_loop] at hc
  | cons f rest ih =>
    intro h c hc
    simp only [fields_loop] at hc
    cases hbv : buildVarDict [] f.active_parameters
        ((cube.drop h).take f.active_parameters.length) with
    | error e => rw [hbv] at hc; dsimp only at hc; simp at hc
    | ok vd =>
      rw [hbv] at hc
      dsimp only at hc
      cases hg : f.generate vd p.ensemble_size p.ensemble_seeds with
      | error e =>
        rw [hg] at hc
        dsimp only at hc
        simp only [List.mem_singleton] at hc
        rcases Event.gen.inj hc with h5
        rw [h5]
        exact ⟨rfl, rfl⟩
      | ok fld =>
        rw [hg] at hc
        dsimp only at hc
        rcases hrec : fields_loop p cube rest (h + f.active_parameters.length) with ⟨res, evs⟩
        rw [hrec] at hc
        rcases res with e2 | ⟨flds, fin⟩
        · dsimp only at hc
          simp only [List.mem_cons] at hc
          rcases hc with hc | hc
          · rcases Event.gen.inj hc with h5; rw [h5]; exact ⟨rfl, rfl⟩
          · exact ih (h + f.active_parameters.length) c (by rw [hrec]; exact hc)
        · dsimp only at hc
          simp only [List.mem_cons] at hc
          rcases hc with hc | hc
          · rcases Event.gen.inj hc with h5; rw [h5]; exact ⟨rfl, rfl⟩
          · exact ih (h + f.active_parameters.length) c (by rw [hrec]; exact hc)

lemma core_rest_no_gen {F O : Type} (p1 : Pipeline F O) (fl : List F) (c : GenCall) :
    Event.gen c ∉ (_core_likelihood_rest p1 fl).2 := by
  unfold _core_likelihood_rest
  split
  · simp
  split
  · simp
  split
  · simp
  split
  · simp
  · simp

/-- C4: in core likelihood evaluation, every `generate` invocation recorded for
the evaluation receives the pipeline's ensemble size and the active ensemble
seeds of that evaluation: under policy `'controllable'` or `'fixed'`, the seed
set freshly derived from the seed tracer by the seed-generation function of the
ensemble size (the hypothesis states that the global generator is in the state
the `seed_tracer` setter put it in), and no seeds (`none`) under `'free'`. -/
theorem c4_generate_receives_active_seeds {F O : Type} (p : Pipeline F O) (cube : List Val)
    (hrng : p.np_random_state = np_random_seed p.seed_tracer) :
    ∀ c : GenCall, Event.gen c ∈ (_core_likelihood p cube).2.2 →
      c.ensemble_seeds =
        (if p.random_type = "free" then none
         else some (ensemble_seed_generator (np_random_seed p.seed_tracer)
            p.ensemble_size).1)
      ∧ c.ensemble_size = p.ensemble_size := by
  intro c hc
  unfold _core_likelihood at hc
  by_cases hb : out_of_bounds cube = true
  · rw [if_pos hb] at hc; simp at hc
  · rw [if_neg hb] at hc
    unfold _core_likelihood_main at hc
    cases hr : _randomness p with
    | error e => rw [hr] at hc; simp at hc
    | ok p1 =>
      rw [hr] at hc
      dsimp only at hc
      have hshape := randomness_ok_shape hr
      have hsize : p1.ensemble_size = p.ensemble_size := by rw [hshape]
      have hseeds := randomness_ok_seeds hr hrng
      have hmem : Event.gen c ∈ (fields_loop p1 cube p1.factory_list 0).2 := by
        rcases hloop : fields_loop p1 cube p1.factory_list 0 with ⟨res, evs⟩
        rw [hloop] at hc
        rcases res with e | ⟨flds, fin⟩
        · dsimp only at hc
          simp only [List.mem_cons] at hc
          rcases hc with hc | hc
          · exact absurd hc (by simp)
          · exact hc
        · dsimp only at hc
          by_cases hif : fin = p1.active_parameters.length
          · rw [if_pos hif] at hc
            dsimp only at hc
            rcases List.mem_cons.mp hc with hc | hc
            · exact absurd hc (by simp)
            rcases List.mem_append.mp hc with hc | hc
            · exact hc
            · exact absurd hc (core_rest_no_gen p1 flds c)
          · rw [if_neg hif] at hc
            dsimp only at hc
            simp only [List.mem_cons] at hc
            rcases hc with hc | hc
            · exact absurd hc (by simp)
            · exact hc
      obtain ⟨hs, hn⟩ := fields_loop_gen_seeds p1 cube p1.factory_list 0 c hmem
      exact ⟨by rw [hs, hseeds], by rw [hn, hsize]⟩

theorem c4_witness :
    (⟨[("x", 0)], 1, some [1]⟩ : GenCall).ensemble_seeds =
      (if exPipeline.random_type = "free" then none
       else some (ensemble_seed_generator (np_random_seed exPipeline.seed_tracer)
          exPipeline.ensemble_size).1)
    ∧ (⟨[("x", 0)], 1, some [1]⟩ : GenCall).ensemble_size = exPipeline.ensemble_size :=
  c4_generate_receives_active_seeds exPipeline [0] rfl ⟨[("x", 0)], 1, some [1]⟩ (by decide)

/-- C7: for every in-bounds cube on which randomness manipulation, the factory
loop (with the index assertion satisfied), simulation, masking and likelihood
scoring all succeed with scalar `l`, core likelihood evaluation raises
`ValueError` when threshold checking is enabled and `l` strictly exceeds
`likelihood_threshold`, and otherwise returns `l` multiplied by the configured
rescaler — the threshold being compared against the unrescaled scalar. -/
theorem c7_threshold_guard {F O : Type} (p p1 : Pipeline F O) (cube : List Val)
    (fields : List F) (obs masked : O) (l : Val) (evs : List Event)
    (hb : out_of_bounds cube = false)
    (hr : _randomness p = .ok p1)
    (hloop : fields_loop p1 cube p1.factory_list 0
      = (.ok (fields, p1.active_parameters.length), evs))
    (hsim : p1.simulator fields = .ok obs)
    (hmask : p1.apply_mask obs = .ok masked)
    (hlik : p1.likelihood masked = .ok l) :
    (_core_likelihood p cube).1 =
      if p.check_threshold = true ∧ p.likelihood_threshold < l then
        .error (.valueError "log-likelihood beyond threshold")
      else .ok (l * p.likelihood_rescaler) := by
  have hshape := randomness_ok_shape hr
  have hct : p1.check_threshold = p.check_threshold := by rw [hshape]
  have hth : p1.likelihood_threshold = p.likelihood_threshold := by rw [hshape]
  have hrs : p1.likelihood_rescaler = p.likelihood_rescaler := by rw [hshape]
  have h1 : _core_likelihood p cube = _core_likelihood_main p cube := by
    unfold _core_likelihood
    rw [if_neg (by simp [hb])]
  have h2 : _core_likelihood_main p cube
      = (if p1.active_parameters.length = p1.active_parameters.length then
          ((_core_likelihood_rest p1 fields).1, p1,
            .rand :: evs ++ (_core_likelihood_rest p1 fields).2)
        else (.error .assertionError, p1, .rand :: evs)) := by
    unfold _core_likelihood_main
    rw [hr]
    dsimp only
    rw [hloop]
  have h3 : _core_likelihood_rest p1 fields
      = (if p1.check_threshold = true ∧ p1.likelihood_threshold < l then
           (.error (.valueError "log-likelihood beyond threshold"), [.sim, .mask, .lik])
         else (.ok (l * p1.likelihood_rescaler), [.sim, .mask, .lik])) := by
    unfold _core_likelihood_rest
    rw [hsim]
    dsimp only
    rw [hmask]
    dsimp only
    rw [hlik]
  rw [h1, h2, if_pos rfl, h3, hct, hth, hrs]
  by_cases hC : p.check_threshold = true ∧ p.likelihood_threshold < l
  · rw [if_pos hC, if_pos hC]
  · rw [if_neg hC, if_neg hC]

/-- Concrete pipeline with threshold checking enabled at threshold 0 and its
stub likelihood scoring `37` (a positive value) on the observables it sees. -/
def thresholdPipeline : Pipeline ExField ExObs :=
  { exPipeline with random_type := "free", check_threshold := true, likelihood_threshold := 0 }

theorem c7_witness :
    (_core_likelihood thresholdPipeline [0]).1
      = .error (.valueError "log-likelihood beyond threshold") := by
  rw [c7_threshold_guard thresholdPipeline thresholdPipeline [0] [none] [none] [none] 37
    [Event.gen ⟨[("x", 0)], 1, none⟩] (by decide) rfl rfl rfl rfl rfl]
  decide

/-- Total number of active parameters declared by a factory list. -/
def total_params {F : Type} (fl : List (GeneralFieldFactory F)) : ℕ :=
  (fl.map (fun f => f.active_parameters.length)).sum

/-- Contiguous per-factory cube slices, following the spec's words (section 4.1,
"Slicing operation"): the factory at offset `h` receives the contiguous
sub-slice of `cube` of its active-parameter count, and the next factory starts
where it ends.  This definition exists to be compared with the slicing the
factory loop of `_core_likelihood` performs. -/
def slice_spec {F : Type} (cube : List Val) :
    List (GeneralFieldFactory F) → ℕ → List (List Val)
  | [], _ => []
  | f :: rest, h =>
    ((cube.drop h).take f.active_parameters.length)
      :: slice_spec cube rest (h + f.active_parameters.length)

/-- Expected per-factory variable dicts: each factory's local active-parameter
names, in declared order, zipped with its contiguous slice values. -/
def var_dicts_spec {F : Type} (cube : List Val) :
    List (GeneralFieldFactory F) → ℕ → List (List (String × Val))
  | [], _ => []
  | f :: rest, h =>
    (f.active_parameters.zip ((cube.drop h).take f.active_parameters.length))
      :: var_dicts_spec cube rest (h + f.active_parameters.length)

lemma dictSet_append {α : Type} (d : List (String × α)) (k : String) (v : α)
    (h : ∀ kv ∈ d, kv.1 ≠ k) : dictSet d k v = d ++ [(k, v)] := by
  unfold dictSet
  rw [if_neg]
  simp only [List.any_eq_true, beq_iff_eq, not_exists, not_and]
  intro kv hkv
  exact h kv hkv

lemma buildVarDict_zip :
    ∀ (names : List String) (vals : List Val) (acc : List (String × Val)),
      names.Nodup → (∀ kv ∈ acc, kv.1 ∉ names) → vals.length = names.length →
      buildVarDict acc names vals = .ok (acc ++ names.zip vals) := by
  intro names
  induction names with
  | nil => intro vals acc _ _ _; simp [buildVarDict]
  | cons n ns ih =>
    intro vals acc hnd hdisj hlen
    cases vals with
    | nil => simp at hlen
    | cons v vs =>
      have hset : dictSet acc n v = acc ++ [(n, v)] :=
        dictSet_append acc n v
          (fun kv hkv he => hdisj kv hkv (he ▸ List.mem_cons_self n ns))
      have hnotin : n ∉ ns := (List.nodup_cons.mp hnd).1
      have hdisj2 : ∀ kv ∈ acc ++ [(n, v)], kv.1 ∉ ns := by
        intro kv hkv
        rcases List.mem_append.mp hkv with hkv | hkv
        · exact fun hmem => hdisj kv hkv (List.mem_cons_of_mem n hmem)
        · rcases List.mem_singleton.mp hkv with rfl
          exact hnotin
      have hlen2 : vs.length = ns.length := by simpa using hlen
      rw [buildVarDict, hset, ih vs (acc ++ [(n, v)]) (List.nodup_cons.mp hnd).2 hdisj2 hlen2]
      simp

lemma slice_spec_flatten {F : Type} (cube : List Val) :
    ∀ (fl : List (GeneralFieldFactory F)) (h : ℕ),
      (slice_spec cube fl h).flatten = (cube.drop h).take (total_params fl) := by
  intro fl
  induction fl with
  | nil => intro h; simp [slice_spec, total_params]
  | cons f rest ih =>
    intro h
    rw [slice_spec, List.flatten_cons, ih (h + f.active_parameters.length)]
    have hdd : (cube.drop h).drop f.active_parameters.length
        = cube.drop (h + f.active_parameters.length) := by
      rw [List.drop_drop, Nat.add_comm]
    rw [← hdd, ← List.take_add]
    simp [total_params]

lemma var_dicts_values {F : Type} (cube : List Val) :
    ∀ (fl : List (GeneralFieldFactory F)) (h : ℕ),
      h + total_params fl ≤ cube.length →
      (var_dicts_spec cube fl h).map (fun vd => vd.map (fun kv => kv.2))
        = slice_spec cube fl h := by
  intro fl
  induction fl with
  | nil => intro h _; simp [var_dicts_spec, slice_spec]
  | cons f rest ih =>
    intro h hlen
    have hbound : f.active_parameters.length + total_params rest ≤ cube.length - h := by
      simp only [total_params, List.map_cons, List.sum_cons] at hlen ⊢
      omega
    have hslice_len : ((cube.drop h).take f.active_parameters.length).length
        = f.active_parameters.length := by
      rw [List.length_take, List.length_drop]
      omega
    rw [var_dicts_spec, slice_spec, List.map_cons]
    congr 1
    · exact List.map_snd_zip f.active_parameters
        ((cube.drop h).take f.active_parameters.length) (by rw [hslice_len])
    · apply ih
      simp only [total_params, List.map_cons, List.sum_cons] at hlen ⊢
      omega

lemma fields_loop_spec {F O : Type} (p : Pipeline F O) (cube : List Val) :
    ∀ (fl : List (GeneralFieldFactory F)) (h : ℕ),
      (∀ f ∈ fl, f.active_parameters.Nodup) →
      (∀ f ∈ fl, ∀ v n s, ∃ fld, f.generate v n s = .ok fld) →
      h + total_params fl ≤ cube.length →
      ∃ fields, fields_loop p cube fl h
        = (.ok (fields, h + total_params fl),
           (var_dicts_spec cube fl h).map
             (fun vd => Event.gen ⟨vd, p.ensemble_size, p.ensemble_seeds⟩)) := by
  intro fl
  induction fl with
  | nil =>
    intro h _ _ _
    exact ⟨[], by simp [fields_loop, total_params, var_dicts_spec]⟩
  | cons f rest ih =>
    intro h hnd hgen hlen
    have hslice_len : ((cube.drop h).take f.active_parameters.length).length
        = f.active_parameters.length := by
      rw [List.length_take, List.length_drop]
      simp only [total_params, List.map_cons, List.sum_cons] at hlen
      omega
    have hbv := buildVarDict_zip f.active_parameters
      ((cube.drop h).take f.active_parameters.length) []
      (hnd f (List.mem_cons_self f rest)) (by simp) hslice_len
    obtain ⟨fld, hf⟩ := hgen f (List.mem_cons_self f rest)
      (f.active_parameters.zip ((cube.drop h).take f.active_parameters.length))
      p.ensemble_size p.ensemble_seeds
    obtain ⟨fields, hrec⟩ := ih (h + f.active_parameters.length)
      (fun g hg => hnd g (List.mem_cons_of_mem f hg))
      (fun g hg => hgen g (List.mem_cons_of_mem f hg))
      (by simp only [total_params, List.map_cons, List.sum_cons] at hlen ⊢; omega)
    refine ⟨fld :: fields, ?_⟩
    rw [fields_loop]
    rw [show buildVarDict [] f.active_parameters
        ((cube.drop h).take f.active_parameters.length)
      = .ok (f.active_parameters.zip ((cube.drop h).take f.active_parameters.length))
      from by rw [hbv]; simp]
    dsimp only
    rw [hf]
    dsimp only
    rw [hrec]
    dsimp only
    rw [var_dicts_spec, List.map_cons]
    have htot : h + f.active_parameters.length + total_params rest
        = h + total_params (f :: rest) := by
      simp only [total_params, List.map_cons, List.sum_cons]
      omega
    rw [htot]

/-- C9: for a registered factory list and a cube whose length equals the total
active-parameter count, the slicing performed by the factory loop of core
likelihood evaluation assigns each factory, in registration order, the
contiguous sub-slice of the cube given by `slice_spec`; each factory's variable
dict maps its local active-parameter names, in declared order, to the slice
values (`var_dicts_spec`, whose value lists are exactly the slices); the loop
ends at tail index equal to the total active-parameter count; and
re-concatenating the slices in factory order reproduces the original cube. -/
theorem c9_slicing_round_trip {F O : Type} (p p1 : Pipeline F O) (cube : List Val)
    (hr : _randomness p = .ok p1)
    (hnd : ∀ f ∈ p.factory_list, f.active_parameters.Nodup)
    (hgen : ∀ f ∈ p.factory_list, ∀ v n s, ∃ fld, f.generate v n s = .ok fld)
    (hlen : cube.length = total_params p.factory_list) :
    (∃ fields, fields_loop p1 cube p1.factory_list 0
        = (.ok (fields, total_params p.factory_list),
           (var_dicts_spec cube p.factory_list 0).map
             (fun vd => Event.gen ⟨vd, p1.ensemble_size, p1.ensemble_seeds⟩)))
    ∧ (var_dicts_spec cube p.factory_list 0).map (fun vd => vd.map (fun kv => kv.2))
        = slice_spec cube p.factory_list 0
    ∧ (slice_spec cube p.factory_list 0).flatten = cube := by
  have hshape := randomness_ok_shape hr
  have hfl : p1.factory_list = p.factory_list := by rw [hshape]
  have hbound : 0 + total_params p.factory_list ≤ cube.length := by omega
  refine ⟨?_, ?_, ?_⟩
  · obtain ⟨fields, hloop⟩ := fields_loop_spec p1 cube p.factory_list 0 hnd hgen hbound
    refine ⟨fields, ?_⟩
    rw [hfl, hloop]
    rw [show (0 + total_params p.factory_list) = total_params p.factory_list from by omega]
  · exact var_dicts_values cube p.factory_list 0 hbound
  · rw [slice_spec_flatten cube p.factory_list 0, List.drop_zero, ← hlen, List.take_length]

/-- Pipeline state of `exPipeline` after its randomness step. -/
def exPipelineAfterRandomness : Pipeline ExField ExObs :=
  { exPipeline with ensemble_seeds := some [1], np_random_state := 2 }

theorem c9_witness :
    (∃ fields, fields_loop exPipelineAfterRandomness [0]
        exPipelineAfterRandomness.factory_list 0
        = (.ok (fields, total_params exPipeline.factory_list),
           (var_dicts_spec [0] exPipeline.factory_list 0).map
             (fun vd => Event.gen ⟨vd, exPipelineAfterRandomness.ensemble_size,
                exPipelineAfterRandomness.ensemble_seeds⟩)))
    ∧ (var_dicts_spec [0] exPipeline.factory_list 0).map (fun vd => vd.map (fun kv => kv.2))
        = slice_spec [0] exPipeline.factory_list 0
    ∧ (slice_spec [0] exPipeline.factory_list 0).flatten = [0] :=
  c9_slicing_round_trip exPipeline exPipelineAfterRandomness [0] rfl
    (by decide)
    (by
      intro f hf v n s
      rcases List.mem_singleton.mp hf with rfl
      exact ⟨s, rfl⟩)
    (by decide)

lemma core_main_after_error {F O : Type} {p : Pipeline F O} (c : List Val) {e : Err}
    (hrr : _randomness p = .error e) : (_core_likelihood_main p c).2.1 = p := by
  unfold _core_likelihood_main
  rw [hrr]

lemma core_main_after_ok {F O : Type} {p p1 : Pipeline F O} (c : List Val)
    (hrr : _randomness p = .ok p1) : (_core_likelihood_main p c).2.1 = p1 := by
  unfold _core_likelihood_main
  rw [hrr]
  dsimp only
  split
  · rfl
  split
  · rfl
  · rfl

lemma randomness_fixed {F O : Type} (p : Pipeline F O) (hfix : p.random_type = "fixed") :
    _randomness p = .ok { p with
      ensemble_seeds := some (ensemble_seed_generator (np_random_seed p.seed_tracer)
        p.ensemble_size).1
      np_random_state := (ensemble_seed_generator (np_random_seed p.seed_tracer)
        p.ensemble_size).2 } := by
  unfold _randomness
  rw [if_neg (by rw [hfix]; decide), if_neg (by rw [hfix]; decide), if_pos hfix]

lemma randomness_fixed_eq {F O : Type} {p q : Pipeline F O}
    (hfix : p.random_type = "fixed") (hq : eqExceptSeeds p q) :
    _randomness q = _randomness p := by
  have h1 : q.random_type = p.random_type := by rw [hq]
  have h2 : q.seed_tracer = p.seed_tracer := by rw [hq]
  have h3 : q.ensemble_size = p.ensemble_size := by rw [hq]
  rw [randomness_fixed p hfix, randomness_fixed q (h1.trans hfix), h2, h3, hq]

lemma fixed_core_stable {F O : Type} {p q : Pipeline F O}
    (hfix : p.random_type = "fixed") (hq : eqExceptSeeds p q) (c : List Val) :
    (_core_likelihood q c).1 = (_core_likelihood p c).1
    ∧ eqExceptSeeds p (_core_likelihood q c).2.1 := by
  unfold _core_likelihood
  by_cases hb : out_of_bounds c = true
  · rw [if_pos hb, if_pos hb]
    exact ⟨rfl, hq⟩
  · rw [if_neg hb, if_neg hb]
    have hre := randomness_fixed_eq hfix hq
    cases hrr : _randomness p with
    | error e =>
      constructor
      · unfold _core_likelihood_main
        rw [hre, hrr]
      · rw [core_main_after_error c (hre.trans hrr)]
        exact hq
    | ok p1 =>
      constructor
      · unfold _core_likelihood_main
        rw [hre, hrr]
      · rw [core_main_after_ok c (hre.trans hrr)]
        exact randomness_ok_shape hrr

lemma free_core_state {F O : Type} (p : Pipeline F O)
    (hfree : p.random_type = "free") (c : List Val) :
    (_core_likelihood p c).2.1 = p := by
  unfold _core_likelihood
  by_cases hb : out_of_bounds c = true
  · rw [if_pos hb]
  · rw [if_neg hb]
    cases hrr : _randomness p with
    | error e => exact core_main_after_error c hrr
    | ok p1 =>
      have hp1 : p1 = p := by
        simp only [_randomness, hfree, if_true] at hrr
        cases hm : p.ensemble_seeds with
        | none =>
          rw [hm] at hrr
          dsimp only at hrr
          exact (Except.ok.inj hrr).symm
        | some s => rw [hm] at hrr; exact Except.noConfusion hrr
      rw [core_main_after_ok c hrr, hp1]

lemma eval_pool_forall {F O : Type} (p : Pipeline F O) (R : Pipeline F O → Prop)
    (hstep : ∀ q c, R q → (_core_likelihood q c).1 = (_core_likelihood p c).1
        ∧ R (_core_likelihood q c).2.1) :
    ∀ (cubes : List (List Val)) (q : Pipeline F O) (out : List Val × Pipeline F O),
      R q → (eval_pool q cubes).1 = .ok out →
      List.Forall₂ (fun c v => (_core_likelihood p c).1 = .ok v) cubes out.1 := by
  intro cubes
  induction cubes with
  | nil =>
    intro q out _ hok
    simp only [eval_pool] at hok
    rw [← Except.ok.inj hok]
    exact List.Forall₂.nil
  | cons c rest ih =>
    intro q out hR hok
    simp only [eval_pool] at hok
    rcases hcq : _core_likelihood q c with ⟨res, q1, tr⟩
    rw [hcq] at hok
    rcases res with e | v
    · simp at hok
    · dsimp only at hok
      rcases hrec : eval_pool q1 rest with ⟨res2, calls⟩
      rw [hrec] at hok
      rcases res2 with e2 | ⟨vs, pf⟩
      · simp at hok
      · dsimp only at hok
        rw [← Except.ok.inj hok]
        constructor
        · have h1 := (hstep q c hR).1
          rw [hcq] at h1
          exact h1.symm
        · have hR1 : R q1 := by
            have h2 := (hstep q c hR).2
            rw [hcq] at h2
            exact h2
          exact ih q1 (vs, pf) hR1 (by rw [hrec])

lemma slices_eq_of_uniform (cubes : List (List Val)) :
    ∀ d, (∀ c ∈ cubes, c.length = d) →
      (List.range cubes.length).map
        (fun i => ((cubes.flatten.drop (i * d)).take d)) = cubes := by
  induction cubes with
  | nil => intro d _; simp
  | cons c rest ih =>
    intro d hd
    have hc : c.length = d := hd c (List.mem_cons_self c rest)
    rw [List.length_cons, List.range_succ_eq_map, List.map_cons, List.map_map]
    congr 1
    · simp only [List.flatten_cons, Nat.zero_mul, List.drop_zero]
      rw [← hc, List.take_left]
    · refine Eq.trans ?_ (ih d (fun x hx => hd x (List.mem_cons_of_mem c hx)))
      apply List.map_congr_left
      intro i _
      simp only [Function.comp_apply, List.flatten_cons]
      have harith : Nat.succ i * d = c.length + i * d := by
        rw [hc, Nat.succ_mul, Nat.add_comm]
      rw [harith, ← List.drop_drop, List.drop_left]

/-- C2 counterexample: with two worker processes holding identical
`'controllable'`-policy pipelines and distinct in-bounds proposals `[0]` and
`[1]`, Protocol A `_mpi_likelihood` on process 1 returns `37` (the root's
second in-order evaluation, performed with an advanced random-generator state
and hence different ensemble seeds), while a direct `_core_likelihood` call on
`[1]` returns `1`.  The claimed equality with direct core evaluation is
therefore false on this input. -/
theorem c2_counterexample :
    (_mpi_likelihood exPipeline exPipeline [[0], [1]] 1).1 = .ok (37 * 1)
    ∧ (_core_likelihood exPipeline [1]).1 = .ok (1 * 1)
    ∧ (Except.ok ((37 : Val) * 1) : Except Err Val) ≠ .ok ((1 : Val) * 1) := by
  refine ⟨rfl, rfl, ?_⟩
  intro hcontra
  have h1 := Except.ok.inj hcontra
  norm_num at h1

/-- C2 amended: under Protocol A with identically-configured processes, the
scatter leaves process `rank` holding the root's in-order evaluation of the
cube `c_rank`; when the randomness policy is `'free'` or `'fixed'` (so that a
core evaluation's result does not depend on how many evaluations preceded it),
this equals exactly the value of a direct `_core_likelihood` call on `c_rank`.
Under `'controllable'` the advancing generator state can make the two differ
(see the counterexample). -/
theorem c2_protocol_a_scatter {F O : Type} (p : Pipeline F O)
    (allCubes : List (List Val)) (rank : ℕ) (out : List Val × Pipeline F O)
    (hmpi : p.sampler_supports_mpi = true)
    (hpol : p.random_type = "free" ∨ p.random_type = "fixed")
    (hrank : rank < allCubes.length)
    (huni : ∀ c ∈ allCubes, c.length = (allCubes.getD rank []).length)
    (hok : (eval_pool p allCubes).1 = .ok out) :
    (_mpi_likelihood p p allCubes rank).1
      = (_core_likelihood p (allCubes.getD rank [])).1 := by
  obtain ⟨vs, pf⟩ := out
  have hslices : (List.range allCubes.length).map
      (fun i => ((allCubes.flatten.drop (i * (allCubes.getD rank []).length)).take
        (allCubes.getD rank []).length)) = allCubes :=
    slices_eq_of_uniform allCubes _ huni
  have hforall : List.Forall₂ (fun c v => (_core_likelihood p c).1 = .ok v)
      allCubes vs := by
    rcases hpol with hfree | hfix
    · exact eval_pool_forall p (fun q => q = p)
        (fun q c hq => by rw [hq]; exact ⟨rfl, free_core_state p hfree c⟩)
        allCubes p (vs, pf) rfl hok
    · exact eval_pool_forall p (eqExceptSeeds p)
        (fun q c hq => fixed_core_stable hfix hq c)
        allCubes p (vs, pf) rfl hok
  have hlen : allCubes.length = vs.length := hforall.length_eq
  have hrank2 : rank < vs.length := hlen ▸ hrank
  have hval : (_core_likelihood p (allCubes.getD rank [])).1
      = .ok (vs.getD rank 0) := by
    rw [List.getD_eq_getElem allCubes [] hrank, List.getD_eq_getElem vs 0 hrank2]
    have hg := hforall.get hrank hrank2
    simpa [List.get_eq_getElem] using hg
  simp only [_mpi_likelihood, hmpi, if_true, hslices]
  rcases hevp : eval_pool p allCubes with ⟨res, calls⟩
  have hres : res = .ok (vs, pf) := by rw [hevp] at hok; exact hok
  subst hres
  dsimp only
  exact hval.symm

/-- Concrete pipeline with the `'fixed'` randomness policy. -/
def fixedPipeline : Pipeline ExField ExObs :=
  { exPipeline with random_type := "fixed" }

/-- Pipeline state of `fixedPipeline` after one randomness step. -/
def fixedPipelineAfter : Pipeline ExField ExObs :=
  { fixedPipeline with ensemble_seeds := some [1], np_random_state := 2 }

theorem c2_witness :
    (_mpi_likelihood fixedPipeline fixedPipeline [[0], [1]] 1).1
      = (_core_likelihood fixedPipeline [1]).1 :=
  c2_protocol_a_scatter fixedPipeline [[0], [1]] 1 ([1 * 1, 1 * 1], fixedPipelineAfter)
    rfl (Or.inr rfl) (by decide) (by decide) rfl

end Imagine
